import Mathlib

/-!
Shallow embedding of `src/joblog_monitor.py` (the `process_log` event
correlator) and proofs of the specification claims about it.

The core of the program is `process_log`: a single pass over the input
lines, keeping a dictionary `active : pid -> (job, start time)`, writing a
CSV report row for every matched END whose duration meets a threshold, and
logging diagnostics for every anomaly.  Time-of-day values are modelled as
seconds since midnight (a `Nat`); both timestamps of a run are combined
with the same fixed reference date in the source (`date.today()`), so a
duration is exactly the difference of the two seconds-of-day values.
-/

namespace JoblogMonitor

/-- Module constant `WARNING_THRESHOLD = 300  # seconds`. -/
def WARNING_THRESHOLD : Int := 300

/-- Module constant `ERROR_THRESHOLD = 600  # seconds`. -/
def ERROR_THRESHOLD : Int := 600

/-- The characters removed by Python `str.strip()` (ASCII whitespace). -/
def pyIsSpace (c : Char) : Bool :=
  c = ' ' || c = '\t' || c = '\n' || c = '\x0d' || c = '\x0b' || c = '\x0c'

/-- Python `str.strip()` on a character list: drop leading and trailing whitespace. -/
def pyStripList (cs : List Char) : List Char :=
  ((cs.dropWhile pyIsSpace).reverse.dropWhile pyIsSpace).reverse

/-- Python `s.strip()`. -/
def pyStrip (s : String) : String := String.mk (pyStripList s.data)

/-- Helper for `s.split(sep, maxsplit)`: `budget` is the number of
separators still allowed to split; once it reaches zero the remainder
(separators included) belongs to the final field. -/
def pySplitAux (sep : Char) : Nat → List Char → List Char → List String
  | _, acc, [] => [String.mk acc.reverse]
  | 0, acc, rest => [String.mk (acc.reverse ++ rest)]
  | budget + 1, acc, c :: rest =>
      if c = sep then String.mk acc.reverse :: pySplitAux sep budget [] rest
      else pySplitAux sep (budget + 1) (c :: acc) rest

/-- Python `line.split(sep=",", maxsplit=3)`: at most the first three commas
are delimiters, the fourth field absorbs any further commas. -/
def pySplitMax3 (s : String) : List String := pySplitAux ',' 3 [] s.data

/-- Full split on a separator character (used for the `:` of `%H:%M:%S`). -/
def splitOnAux (sep : Char) : List Char → List Char → List String
  | acc, [] => [String.mk acc.reverse]
  | acc, c :: rest =>
      if c = sep then String.mk acc.reverse :: splitOnAux sep [] rest
      else splitOnAux sep (c :: acc) rest

/-- Full split of a string on a separator character. -/
def splitOn (sep : Char) (s : String) : List String := splitOnAux sep [] s.data

/-- Value of a non-empty all-ASCII-digit character list, `none` otherwise. -/
def decimalValue (cs : List Char) : Option Nat :=
  if cs ≠ [] && cs.all Char.isDigit then
    some (cs.foldl (fun n c => n * 10 + (c.toNat - 48)) 0)
  else none

/-- One `%H` / `%M` / `%S` component of `datetime.strptime`: one or two
ASCII digits whose value is at most `maxVal`. -/
def timeField (s : String) (maxVal : Nat) : Option Nat :=
  if s.data.length = 1 || s.data.length = 2 then
    match decimalValue s.data with
    | some n => if n ≤ maxVal then some n else none
    | none => none
  else none

/-- Model of `datetime.strptime(ts_str, "%H:%M:%S").time()` as seconds since
midnight.  The `%S` regex of `strptime` also matches the leap-second values
60 and 61, but `datetime` then raises `ValueError`, which the caller
catches exactly like a parse failure, so the observable acceptance is
seconds 0-59; hours are 0-23 and minutes 0-59, each written with one or two
digits. -/
def strptimeHMS (s : String) : Option Nat :=
  match splitOn ':' s with
  | [h, m, sec] =>
    match timeField h 23, timeField m 59, timeField sec 59 with
    | some hv, some mv, some sv => some (hv * 3600 + mv * 60 + sv)
    | _, _, _ => none
  | _ => none

/-- ASCII uppercasing of one character (the event strings compared against
are pure ASCII, so the full Unicode mapping of `str.upper` is not needed). -/
def pyUpperChar (c : Char) : Char :=
  if 'a' ≤ c && c ≤ 'z' then Char.ofNat (c.toNat - 32) else c

/-- Python `event.upper()`. -/
def pyUpper (s : String) : String := String.mk (s.data.map pyUpperChar)

/-- Severity levels used by the source (`logger.debug` / `logger.info` /
`logger.warning`); `debug` is the lowest, the spec's trace channel. -/
inductive Level
  | debug
  | info
  | warning
deriving DecidableEq

/-- One diagnostic message emitted through the logger, by source line:
`emptyLine` (line 92), `malformedLine` (line 99), `badTimestamp` (line 109),
`unknownEvent` (line 114), `duplicateStart` (line 119), `endWithNoStart`
(line 124), `stillRunning` (line 141). -/
inductive Diag
  | emptyLine (lineno : Nat)
  | malformedLine (lineno : Nat) (nfields : Nat) (line : String)
  | badTimestamp (lineno : Nat) (tsStr : String)
  | unknownEvent (lineno : Nat) (event : String)
  | duplicateStart (lineno : Nat) (pid : String)
  | endWithNoStart (lineno : Nat) (pid : String)
  | stillRunning (pid : String) (job : String) (startSec : Nat)
deriving DecidableEq

/-- The logging level each diagnostic is emitted at in the source. -/
def Diag.level : Diag → Level
  | .emptyLine _ => .debug
  | .stillRunning _ _ _ => .info
  | _ => .warning

/-- One report row as handed to `writer.writerow` on line 137, keeping the
exact duration used for the threshold comparison. -/
structure Row where
  pid : String
  job : String
  durationSec : Int
  flag : String
deriving DecidableEq

/-- Result of the per-line validation (source lines 90-115), before any
state is touched. -/
inductive Parsed
  | empty
  | malformed (nfields : Nat) (line : String)
  | badTs (tsStr : String)
  | badEvent (event : String)
  | startEv (job : String) (ts : Nat) (pid : String)
  | endEv (job : String) (ts : Nat) (pid : String)
deriving DecidableEq

/-- Validation of the four fields `ts_str, job, event, pid` (source lines
102-115): parse the timestamp, then uppercase the event and require exactly
`START` or `END` (the unknown-event warning logs the uppercased event,
since the source reassigns `event` before logging). -/
def parseEvent (tsStr job event pid : String) : Parsed :=
  match strptimeHMS tsStr with
  | none => .badTs tsStr
  | some ts =>
    if pyUpper event = "START" then .startEv job ts pid
    else if pyUpper event = "END" then .endEv job ts pid
    else .badEvent (pyUpper event)

/-- Field-count check of source lines 98-100: any field count other than
four is malformed (the split produces at most four). -/
def parseFields (line : String) : List String → Parsed
  | [tsStr, job, event, pid] => parseEvent tsStr job event pid
  | parts => .malformed parts.length line

/-- Validation of one raw line, source lines 90-115: strip; skip if empty;
split on the first three commas and strip each field; then validate the
fields. -/
def parseLine (raw : String) : Parsed :=
  if pyStrip raw = "" then .empty
  else parseFields (pyStrip raw) ((pySplitMax3 (pyStrip raw)).map pyStrip)

/-- The correlator state: the `active` dictionary (insertion-ordered
association list, as a Python dict), the report rows written so far, and
the diagnostics emitted so far. -/
structure St where
  active : List (String × String × Nat)
  rows : List Row
  diags : List Diag
deriving DecidableEq

/-- Dict lookup `active[pid]` / `pid in active`. -/
def dictFind : List (String × String × Nat) → String → Option (String × Nat)
  | [], _ => none
  | e :: rest, k => if e.1 = k then some e.2 else dictFind rest k

/-- Dict assignment `active[pid] = v`: overwrite in place if the key is
present (keeping its position, as a Python dict does), else append. -/
def dictInsert : List (String × String × Nat) → String → String × Nat →
    List (String × String × Nat)
  | [], k, v => [(k, v)]
  | e :: rest, k, v => if e.1 = k then (k, v) :: rest else e :: dictInsert rest k v

/-- Dict removal `active.pop(pid)` (the key occurs at most once in any
reachable state). -/
def dictErase : List (String × String × Nat) → String → List (String × String × Nat)
  | [], _ => []
  | e :: rest, k => if e.1 = k then rest else e :: dictErase rest k

/-- The keys of the open-job table. -/
def keys (d : List (String × String × Nat)) : List String := d.map (·.1)

/-- One iteration of the `for lineno, raw_line in enumerate(src, 1)` loop,
source lines 90-137: validate the line, then on START insert/overwrite the
open entry (warning on duplicate), on END either warn on an orphan or pop
the entry, compute the duration, classify it against the thresholds and
append a row when flagged. -/
def processLine (st : St) (lineno : Nat) (raw : String) : St :=
  match parseLine raw with
  | .empty => { st with diags := st.diags ++ [.emptyLine lineno] }
  | .malformed n line => { st with diags := st.diags ++ [.malformedLine lineno n line] }
  | .badTs s => { st with diags := st.diags ++ [.badTimestamp lineno s] }
  | .badEvent e => { st with diags := st.diags ++ [.unknownEvent lineno e] }
  | .startEv job ts pid =>
      let dupWarn : List Diag :=
        match dictFind st.active pid with
        | some _ => [.duplicateStart lineno pid]
        | none => []
      { st with active := dictInsert st.active pid (job, ts),
                diags := st.diags ++ dupWarn }
  | .endEv _job ts pid =>
      match dictFind st.active pid with
      | none => { st with diags := st.diags ++ [.endWithNoStart lineno pid] }
      | some (jobDesc, startTs) =>
          let duration : Int := (ts : Int) - (startTs : Int)
          let flag : String :=
            if duration ≥ ERROR_THRESHOLD then "ERROR"
            else if duration ≥ WARNING_THRESHOLD then "WARNING"
            else ""
          { st with
              active := dictErase st.active pid,
              rows := if flag ≠ "" then st.rows ++ [⟨pid, jobDesc, duration, flag⟩]
                      else st.rows }

/-- The whole `for` loop: process the lines in order, numbering from
`lineno`. -/
def runLines : St → Nat → List String → St
  | st, _, [] => st
  | st, lineno, l :: ls => runLines (processLine st lineno l) (lineno + 1) ls

/-- The initial state: empty table, no rows, no diagnostics (the header row
is accounted for in `report` below). -/
def initSt : St := ⟨[], [], []⟩

/-- Source lines 139-141: after the loop, log one informational message per
job still open, in dictionary (insertion) order. -/
def endOfStream (st : St) : St :=
  { st with diags := st.diags ++ st.active.map (fun e => .stillRunning e.1 e.2.1 e.2.2) }

/-- The correlator `process_log`: run the loop over all input lines starting at line
number 1, then report the still-open jobs. -/
def process_log (lines : List String) : St := endOfStream (runLines initSt 1 lines)

/-- Python `f"{duration:.0f}"`: the duration is an exact whole number of seconds
(difference of two whole-second timestamps), so the formatted value is its
decimal integer representation. -/
def fmtDuration (d : Int) : String := toString d

/-- The field list handed to `writer.writerow` for one flagged job
(line 137). -/
def renderRow (r : Row) : List String := [r.pid, r.job, fmtDuration r.durationSec, r.flag]

/-- The header row written on line 87. -/
def headerRow : List String := ["pid", "job", "duration_sec", "flag"]

/-- The full report file as a list of CSV records: the header first, then
the data rows in the order they were written. -/
def report (lines : List String) : List (List String) :=
  headerRow :: (process_log lines).rows.map renderRow

/-- The pid and direction (`true` = START, `false` = END) of a line that
passes validation. -/
def lineEvent (raw : String) : Option (String × Bool) :=
  match parseLine raw with
  | .startEv _ _ pid => some (pid, true)
  | .endEv _ _ pid => some (pid, false)
  | _ => none

/-- The direction of the last valid START/END line for a given pid, if
any. -/
def lastEvent : List String → String → Option Bool
  | [], _ => none
  | l :: ls, pid =>
    match lastEvent ls pid with
    | some b => some b
    | none =>
      match lineEvent l with
      | some pb => if pb.1 = pid then some pb.2 else none
      | none => none

/-! ### Dictionary lemmas -/

theorem dictFind_insert_self (d : List (String × String × Nat)) (k : String)
    (v : String × Nat) : dictFind (dictInsert d k v) k = some v := by
  induction d with
  | nil => simp [dictInsert, dictFind]
  | cons e rest ih =>
    by_cases h : e.1 = k
    · simp [dictInsert, dictFind, h]
    · simp [dictInsert, dictFind, h, ih]

theorem dictFind_insert_ne (d : List (String × String × Nat)) (k k' : String)
    (v : String × Nat) (h : k' ≠ k) :
    dictFind (dictInsert d k v) k' = dictFind d k' := by
  have h' : ¬ k = k' := fun hh => h hh.symm
  induction d with
  | nil => simp [dictInsert, dictFind, h']
  | cons e rest ih =>
    by_cases he : e.1 = k
    · simp [dictInsert, dictFind, he, h']
    · simp [dictInsert, dictFind, he, ih]

@[simp] theorem keys_nil : keys ([] : List (String × String × Nat)) = [] := rfl

@[simp] theorem keys_cons (e : String × String × Nat) (d : List (String × String × Nat)) :
    keys (e :: d) = e.1 :: keys d := rfl

theorem keys_insert (d : List (String × String × Nat)) (k : String) (v : String × Nat) :
    keys (dictInsert d k v) = if k ∈ keys d then keys d else keys d ++ [k] := by
  induction d with
  | nil => simp [dictInsert]
  | cons e rest ih =>
    by_cases h : e.1 = k
    · simp [dictInsert, h]
    · have hne : ¬ k = e.1 := fun hh => h hh.symm
      by_cases hm : k ∈ keys rest
      · simp [dictInsert, h, hm, hne, ih]
      · simp [dictInsert, h, hm, hne, ih]

theorem nodup_keys_insert (d : List (String × String × Nat)) (k : String)
    (v : String × Nat) (h : (keys d).Nodup) : (keys (dictInsert d k v)).Nodup := by
  rw [keys_insert]
  by_cases hm : k ∈ keys d
  · simpa [hm] using h
  · simp [hm, List.nodup_append, h]

theorem dictErase_sublist (d : List (String × String × Nat)) (k : String) :
    (dictErase d k).Sublist d := by
  induction d with
  | nil => simp [dictErase]
  | cons e rest ih =>
    by_cases h : e.1 = k
    · simp only [dictErase, if_pos h]
      exact List.sublist_cons_self e rest
    · simpa [dictErase, h] using ih.cons₂ e

theorem nodup_keys_erase (d : List (String × String × Nat)) (k : String)
    (h : (keys d).Nodup) : (keys (dictErase d k)).Nodup := by
  have hs := List.Sublist.map (fun e : String × String × Nat => e.1)
    (dictErase_sublist d k)
  exact h.sublist hs

theorem mem_keys_iff_find (d : List (String × String × Nat)) (k : String) :
    k ∈ keys d ↔ (dictFind d k).isSome := by
  induction d with
  | nil => simp [dictFind]
  | cons e rest ih =>
    by_cases h : e.1 = k
    · simp [dictFind, h]
    · have h' : ¬ k = e.1 := fun hh => h hh.symm
      simp [dictFind, h, h', ih]

theorem mem_keys_erase (d : List (String × String × Nat)) (k p : String)
    (h : (keys d).Nodup) : p ∈ keys (dictErase d k) ↔ p ∈ keys d ∧ p ≠ k := by
  induction d with
  | nil => simp [dictErase, keys]
  | cons e rest ih =>
    have hcons : keys (e :: rest) = e.1 :: keys rest := rfl
    rw [hcons] at h
    have h1 : (keys rest).Nodup := h.of_cons
    have h2 : e.1 ∉ keys rest := (List.nodup_cons.mp h).1
    by_cases hek : e.1 = k
    · subst hek
      simp only [dictErase, if_pos rfl, hcons, List.mem_cons]
      constructor
      · intro hp
        exact ⟨Or.inr hp, fun hpk => h2 (hpk ▸ hp)⟩
      · rintro ⟨hp | hp, hpk⟩
        · exact absurd hp hpk
        · exact hp
    · simp only [dictErase, if_neg hek, keys_cons, List.mem_cons, ih h1]
      constructor
      · rintro (hp | ⟨hp, hpk⟩)
        · exact ⟨Or.inl hp, fun hh => hek (hp ▸ hh)⟩
        · exact ⟨Or.inr hp, hpk⟩
      · rintro ⟨hp | hp, hpk⟩
        · exact Or.inl hp
        · exact Or.inr ⟨hp, hpk⟩

/-! ### Claim theorems about single-line processing -/

/-- C1: for every matched START/END pair — a valid END line whose pid has
an open entry — exactly one report row with flag `ERROR` is appended when
the duration reaches `ERROR_THRESHOLD`; exactly one row with flag `WARNING`
when it reaches `WARNING_THRESHOLD` but not `ERROR_THRESHOLD`; and no row
when it is below `WARNING_THRESHOLD`; the duration is the END timestamp
minus the stored START timestamp, in seconds. -/
theorem C1_threshold_classification (st : St) (n : Nat) (raw : String)
    (job pid jobDesc : String) (ts startTs : Nat)
    (hp : parseLine raw = .endEv job ts pid)
    (hf : dictFind st.active pid = some (jobDesc, startTs)) :
    ((ts : Int) - (startTs : Int) ≥ ERROR_THRESHOLD →
      (processLine st n raw).rows =
        st.rows ++ [⟨pid, jobDesc, (ts : Int) - (startTs : Int), "ERROR"⟩]) ∧
    (WARNING_THRESHOLD ≤ (ts : Int) - (startTs : Int) ∧
        (ts : Int) - (startTs : Int) < ERROR_THRESHOLD →
      (processLine st n raw).rows =
        st.rows ++ [⟨pid, jobDesc, (ts : Int) - (startTs : Int), "WARNING"⟩]) ∧
    ((ts : Int) - (startTs : Int) < WARNING_THRESHOLD →
      (processLine st n raw).rows = st.rows) := by
  simp only [processLine, hp, hf, WARNING_THRESHOLD, ERROR_THRESHOLD]
  refine ⟨fun h => ?_, fun h => ?_, fun h => ?_⟩ <;>
    simp only [WARNING_THRESHOLD, ERROR_THRESHOLD] at h <;>
    split_ifs <;> first | rfl | omega | simp_all

/-- C1 witness: a 720-second pair (scenario C of the spec) appends exactly
one ERROR row. -/
theorem C1_witness :
    (processLine ⟨[("202", "ETL", 32400)], [], []⟩ 2 "09:12:00,ETL,END,202").rows =
      (⟨[("202", "ETL", 32400)], [], []⟩ : St).rows ++
        [⟨"202", "ETL", (33120 : Int) - (32400 : Int), "ERROR"⟩] :=
  (C1_threshold_classification ⟨[("202", "ETL", 32400)], [], []⟩ 2
    "09:12:00,ETL,END,202" "ETL" "202" "ETL" 33120 32400 (by decide) (by decide)).1
    (by decide)

/-- C2: for every valid START line whose pid already has an open entry, the
correlator emits exactly the duplicate-START warning and overwrites the
entry: the new job description and start timestamp entirely replace the old
ones, other pids are untouched, and no report row is written (so only the
second start can later pair with an END). -/
theorem C2_duplicate_start_overwrites (st : St) (n : Nat) (raw : String)
    (job pid : String) (ts : Nat) (old : String × Nat)
    (hp : parseLine raw = .startEv job ts pid)
    (hf : dictFind st.active pid = some old) :
    (processLine st n raw).diags = st.diags ++ [.duplicateStart n pid] ∧
    (processLine st n raw).active = dictInsert st.active pid (job, ts) ∧
    dictFind (processLine st n raw).active pid = some (job, ts) ∧
    (∀ pid', pid' ≠ pid →
      dictFind (processLine st n raw).active pid' = dictFind st.active pid') ∧
    (processLine st n raw).rows = st.rows := by
  simp only [processLine, hp, hf]
  exact ⟨trivial, trivial, dictFind_insert_self st.active pid (job, ts),
    fun pid' h => dictFind_insert_ne st.active pid pid' (job, ts) h, trivial⟩

/-- C2 witness: a second START for pid 101 replaces the stored entry. -/
theorem C2_witness :
    dictFind (processLine ⟨[("101", "Old", 100)], [], []⟩ 5
      "09:00:00,New,START,101").active "101" = some ("New", 32400) :=
  (C2_duplicate_start_overwrites ⟨[("101", "Old", 100)], [], []⟩ 5
    "09:00:00,New,START,101" "New" "101" 32400 ("Old", 100)
    (by decide) (by decide)).2.2.1

/-- C3: for every valid END line whose pid has no open entry (orphan END),
the correlator emits exactly the END-with-no-START warning diagnostic,
writes no report row, leaves the open-job table unchanged, and continues
with the next line. -/
theorem C3_orphan_end_skipped (st : St) (n : Nat) (raw : String)
    (job pid : String) (ts : Nat)
    (hp : parseLine raw = .endEv job ts pid)
    (hf : dictFind st.active pid = none) :
    (processLine st n raw).active = st.active ∧
    (processLine st n raw).rows = st.rows ∧
    (processLine st n raw).diags = st.diags ++ [.endWithNoStart n pid] ∧
    (Diag.endWithNoStart n pid).level = .warning ∧
    (∀ ls, runLines st n (raw :: ls) = runLines (processLine st n raw) (n + 1) ls) := by
  have hrun : ∀ ls, runLines st n (raw :: ls) = runLines (processLine st n raw) (n + 1) ls :=
    fun ls => rfl
  simp only [processLine, hp, hf] at hrun ⊢
  exact ⟨trivial, trivial, trivial, rfl, hrun⟩

/-- C3 witness: an END for a pid never started changes nothing but the
diagnostics. -/
theorem C3_witness :
    (processLine ⟨[("7", "J", 0)], [], []⟩ 1 "09:00:00,x,END,1").active =
      (⟨[("7", "J", 0)], [], []⟩ : St).active :=
  (C3_orphan_end_skipped ⟨[("7", "J", 0)], [], []⟩ 1 "09:00:00,x,END,1"
    "x" "1" 32400 (by decide) (by decide)).1

/-- C6: a matched pair whose END timestamp precedes its START timestamp has
a negative duration, which meets neither threshold: the classification
rules apply arithmetically, no report row is written, no diagnostic is
emitted, and the pair is silently dropped (the entry is still consumed). -/
theorem C6_negative_duration_dropped (st : St) (n : Nat) (raw : String)
    (job pid jobDesc : String) (ts startTs : Nat)
    (hp : parseLine raw = .endEv job ts pid)
    (hf : dictFind st.active pid = some (jobDesc, startTs))
    (hneg : ts < startTs) :
    (processLine st n raw).rows = st.rows ∧
    (processLine st n raw).diags = st.diags ∧
    (processLine st n raw).active = dictErase st.active pid := by
  simp only [processLine, hp, hf, WARNING_THRESHOLD, ERROR_THRESHOLD]
  refine ⟨?_, trivial, trivial⟩
  split_ifs <;> first | rfl | omega | simp_all

/-- C6 witness: an END one second before its START (duration -1) is dropped
without a row or a diagnostic. -/
theorem C6_witness :
    (processLine ⟨[("9", "J", 32400)], [], []⟩ 3 "08:59:59,J,END,9").rows =
      (⟨[("9", "J", 32400)], [], []⟩ : St).rows :=
  (C6_negative_duration_dropped ⟨[("9", "J", 32400)], [], []⟩ 3 "08:59:59,J,END,9"
    "J" "9" "J" 32399 32400 (by decide) (by decide) (by decide)).1

/-- C9: every input line that is empty after trimming whitespace is
skipped with exactly one diagnostic at the lowest (`logger.debug`, the
spec's trace) level, with no change to the open-job table and no report
row, and processing continues with the next line. -/
theorem C9_empty_line_skipped (st : St) (n : Nat) (raw : String)
    (h : pyStrip raw = "") :
    (processLine st n raw).active = st.active ∧
    (processLine st n raw).rows = st.rows ∧
    (processLine st n raw).diags = st.diags ++ [.emptyLine n] ∧
    (Diag.emptyLine n).level = .debug ∧
    (∀ ls, runLines st n (raw :: ls) = runLines (processLine st n raw) (n + 1) ls) := by
  have hp : parseLine raw = .empty := by simp [parseLine, h]
  have hrun : ∀ ls, runLines st n (raw :: ls) = runLines (processLine st n raw) (n + 1) ls :=
    fun ls => rfl
  simp only [processLine, hp] at hrun ⊢
  exact ⟨trivial, trivial, trivial, rfl, hrun⟩

/-- C9 witness: a whitespace-only line only appends the debug
diagnostic. -/
theorem C9_witness :
    (processLine ⟨[], [], []⟩ 4 "   ").diags =
      (⟨[], [], []⟩ : St).diags ++ [.emptyLine 4] :=
  (C9_empty_line_skipped ⟨[], [], []⟩ 4 "   " (by decide)).2.2.1

/-! ### Malformed lines (C4) -/

theorem parseFields_not_four (line : String) (parts : List String)
    (h : parts.length ≠ 4) :
    parseFields line parts = .malformed parts.length line := by
  rcases parts with _ | ⟨a, _ | ⟨b, _ | ⟨c, _ | ⟨d, _ | ⟨e, rest⟩⟩⟩⟩⟩
  · rfl
  · rfl
  · rfl
  · rfl
  · exact absurd rfl h
  · rfl

/-- C4: every malformed line — field count after the positional four-way
split different from four, timestamp not parseable as an `HH:MM:SS` time of
day, or event (after uppercasing) not exactly `START` or `END` — is skipped
with exactly one warning diagnostic and no change to the open-job table and
no report row; processing is total, so subsequent lines are handled
normally and no validation failure is fatal. -/
theorem C4_malformed_line_skipped (st : St) (n : Nat) (raw : String)
    (hne : pyStrip raw ≠ "")
    (h : ((pySplitMax3 (pyStrip raw)).map pyStrip).length ≠ 4 ∨
      (∃ tsStr job event pid,
        (pySplitMax3 (pyStrip raw)).map pyStrip = [tsStr, job, event, pid] ∧
        (strptimeHMS tsStr = none ∨
          (pyUpper event ≠ "START" ∧ pyUpper event ≠ "END")))) :
    (processLine st n raw).active = st.active ∧
    (processLine st n raw).rows = st.rows ∧
    (∃ d, (processLine st n raw).diags = st.diags ++ [d] ∧ d.level = .warning) := by
  have hparse : parseLine raw =
      parseFields (pyStrip raw) ((pySplitMax3 (pyStrip raw)).map pyStrip) := by
    simp [parseLine, hne]
  rcases h with h4 | ⟨tsStr, job, event, pid, hparts, hbad⟩
  · have hp : parseLine raw =
        .malformed ((pySplitMax3 (pyStrip raw)).map pyStrip).length (pyStrip raw) := by
      rw [hparse]
      exact parseFields_not_four _ _ h4
    simp only [processLine, hp]
    exact ⟨trivial, trivial,
      ⟨.malformedLine n ((pySplitMax3 (pyStrip raw)).map pyStrip).length (pyStrip raw),
        rfl, rfl⟩⟩
  · rcases hts : strptimeHMS tsStr with _ | ts
    · have hp : parseLine raw = .badTs tsStr := by
        rw [hparse, hparts]
        simp [parseFields, parseEvent, hts]
      simp only [processLine, hp]
      exact ⟨trivial, trivial, ⟨.badTimestamp n tsStr, rfl, rfl⟩⟩
    · rcases hbad with hnone | ⟨hS, hE⟩
      · rw [hts] at hnone
        exact absurd hnone (by simp)
      · have hp : parseLine raw = .badEvent (pyUpper event) := by
          rw [hparse, hparts]
          simp [parseFields, parseEvent, hts, hS, hE]
        simp only [processLine, hp]
        exact ⟨trivial, trivial, ⟨.unknownEvent n (pyUpper event), rfl, rfl⟩⟩

/-- C4 witness: the three-field line of scenario E is skipped without
touching the table or the report. -/
theorem C4_witness :
    (processLine ⟨[], [], []⟩ 1 "garbage,missing,fields").rows =
      (⟨[], [], []⟩ : St).rows :=
  (C4_malformed_line_skipped ⟨[], [], []⟩ 1 "garbage,missing,fields"
    (by decide) (Or.inl (by decide))).2.1

/-! ### The open-job table invariant (C5) -/

theorem nodup_keys_processLine (st : St) (n : Nat) (raw : String)
    (hnd : (keys st.active).Nodup) :
    (keys (processLine st n raw).active).Nodup := by
  rcases hp : parseLine raw with _ | ⟨nf, l⟩ | s | e | ⟨job, ts, pid⟩ | ⟨job, ts, pid⟩ <;>
    simp only [processLine, hp]
  · exact hnd
  · exact hnd
  · exact hnd
  · exact hnd
  · exact nodup_keys_insert st.active pid (job, ts) hnd
  · rcases hf : dictFind st.active pid with _ | ⟨jd, sts⟩ <;> simp only [hf]
    · exact hnd
    · exact nodup_keys_erase st.active pid hnd

theorem keys_processLine (st : St) (n : Nat) (raw : String) (p : String)
    (hnd : (keys st.active).Nodup) :
    (p ∈ keys (processLine st n raw).active ↔
      match lineEvent raw with
      | some (q, true) => p = q ∨ p ∈ keys st.active
      | some (q, false) => p ∈ keys st.active ∧ p ≠ q
      | none => p ∈ keys st.active) := by
  rcases hp : parseLine raw with _ | ⟨nf, l⟩ | s | e | ⟨job, ts, pid⟩ | ⟨job, ts, pid⟩ <;>
    simp only [lineEvent, processLine, hp]
  · rw [keys_insert]
    by_cases hm : pid ∈ keys st.active
    · rw [if_pos hm]
      constructor
      · exact Or.inr
      · rintro (hpq | hmem)
        · exact hpq ▸ hm
        · exact hmem
    · rw [if_neg hm]
      simp only [List.mem_append, List.mem_singleton]
      tauto
  · rcases hf : dictFind st.active pid with _ | ⟨jd, sts⟩ <;> simp only [hf]
    · have hnm : pid ∉ keys st.active := by
        rw [mem_keys_iff_find, hf]
        simp
      constructor
      · intro hmem
        exact ⟨hmem, fun hpq => hnm (hpq ▸ hmem)⟩
      · exact And.left
    · exact mem_keys_erase st.active pid p hnd

theorem nodup_keys_runLines (ls : List String) (st : St) (n : Nat)
    (hnd : (keys st.active).Nodup) :
    (keys (runLines st n ls).active).Nodup := by
  induction ls generalizing st n with
  | nil => exact hnd
  | cons l rest ih => exact ih (processLine st n l) (n + 1) (nodup_keys_processLine st n l hnd)

theorem mem_keys_runLines (ls : List String) (st : St) (n : Nat) (p : String)
    (hnd : (keys st.active).Nodup) :
    (p ∈ keys (runLines st n ls).active ↔
      match lastEvent ls p with
      | some true => True
      | some false => False
      | none => p ∈ keys st.active) := by
  induction ls generalizing st n with
  | nil => simp [runLines, lastEvent]
  | cons l rest ih =>
    have hrun : runLines st n (l :: rest) = runLines (processLine st n l) (n + 1) rest := rfl
    have hnd' := nodup_keys_processLine st n l hnd
    rw [hrun, ih (processLine st n l) (n + 1) hnd']
    simp only [lastEvent]
    rcases hls : lastEvent rest p with _ | b
    · simp only [hls]
      rw [keys_processLine st n l p hnd]
      rcases hle : lineEvent l with _ | ⟨q, b⟩
      · simp only [hle]
      · simp only [hle]
        rcases b with _ | _
        · by_cases hqp : q = p
          · subst hqp
            simp
          · have hpq : p ≠ q := fun hh => hqp hh.symm
            simp [if_neg hqp, hpq]
        · by_cases hqp : q = p
          · subst hqp
            simp
          · have hpq : p ≠ q := fun hh => hqp hh.symm
            simp [if_neg hqp, hpq]
    · simp only [hls]
      cases b <;> simp

/-- C5: at every point during processing (i.e. after any list of input
lines), the open-job table has no duplicate pid, and a pid is present in it
exactly when its most recent valid START/END line is a START — its most
recent valid START has not yet been matched by a valid END.  The
end-of-stream pass does not change the table. -/
theorem C5_table_invariant (lines : List String) (pid : String) :
    (keys (runLines initSt 1 lines).active).Nodup ∧
    (pid ∈ keys (runLines initSt 1 lines).active ↔ lastEvent lines pid = some true) ∧
    (process_log lines).active = (runLines initSt 1 lines).active := by
  refine ⟨nodup_keys_runLines lines initSt 1 (by simp [initSt]), ?_, rfl⟩
  rw [mem_keys_runLines lines initSt 1 pid (by simp [initSt])]
  rcases hls : lastEvent lines pid with _ | b
  · simp [initSt]
  · cases b <;> simp

/-! ### Report rows (C7) -/

theorem rows_step (st : St) (n : Nat) (raw : String) :
    ∃ opt : Option Row,
      (processLine st n raw).rows = st.rows ++ opt.toList ∧
      ∀ r ∈ opt.toList, r.flag = "WARNING" ∨ r.flag = "ERROR" := by
  rcases hp : parseLine raw with _ | ⟨nf, l⟩ | s | e | ⟨job, ts, pid⟩ | ⟨job, ts, pid⟩
  · exact ⟨none, by simp [processLine, hp], by simp⟩
  · exact ⟨none, by simp [processLine, hp], by simp⟩
  · exact ⟨none, by simp [processLine, hp], by simp⟩
  · exact ⟨none, by simp [processLine, hp], by simp⟩
  · exact ⟨none, by simp [processLine, hp], by simp⟩
  · rcases hf : dictFind st.active pid with _ | ⟨jd, sts⟩
    · exact ⟨none, by simp [processLine, hp, hf], by simp⟩
    · by_cases h1 : ((ts : Int) - (sts : Int)) ≥ ERROR_THRESHOLD
      · refine ⟨some ⟨pid, jd, (ts : Int) - (sts : Int), "ERROR"⟩, ?_, by simp⟩
        simp [processLine, hp, hf, h1]
      · by_cases h2 : ((ts : Int) - (sts : Int)) ≥ WARNING_THRESHOLD
        · refine ⟨some ⟨pid, jd, (ts : Int) - (sts : Int), "WARNING"⟩, ?_, by simp⟩
          simp [processLine, hp, hf, h1, h2]
        · refine ⟨none, ?_, by simp⟩
          simp [processLine, hp, hf, h1, h2]

theorem rows_flags_runLines (ls : List String) (st : St) (n : Nat)
    (h : ∀ r ∈ st.rows, r.flag = "WARNING" ∨ r.flag = "ERROR") :
    ∀ r ∈ (runLines st n ls).rows, r.flag = "WARNING" ∨ r.flag = "ERROR" := by
  induction ls generalizing st n with
  | nil => exact h
  | cons l rest ih =>
    refine ih (processLine st n l) (n + 1) ?_
    obtain ⟨opt, heq, hflag⟩ := rows_step st n l
    intro r hr
    rw [heq] at hr
    rcases List.mem_append.mp hr with h1 | h2
    · exact h r h1
    · exact hflag r h2

theorem rows_monotone (ls : List String) (st : St) (n : Nat) :
    ∃ new, (runLines st n ls).rows = st.rows ++ new := by
  induction ls generalizing st n with
  | nil => exact ⟨[], by simp [runLines]⟩
  | cons l rest ih =>
    obtain ⟨opt, heq, _⟩ := rows_step st n l
    obtain ⟨new, hnew⟩ := ih (processLine st n l) (n + 1)
    refine ⟨opt.toList ++ new, ?_⟩
    have hrun : runLines st n (l :: rest) = runLines (processLine st n l) (n + 1) rest := rfl
    rw [hrun, hnew, heq, List.append_assoc]

/-- C7: the report starts with the header row `pid,job,duration_sec,flag`
followed by the data rows in the order they were produced; every data row
carries flag `WARNING` or `ERROR` and its `duration_sec` field is the
decimal integer string of the exact duration; each processed line appends
at most one row at the end (so rows appear in END-encounter order), and a
whole run only ever extends the rows already written. -/
theorem C7_report_shape (lines : List String) :
    report lines = ["pid", "job", "duration_sec", "flag"] ::
      (process_log lines).rows.map renderRow ∧
    (∀ r ∈ (process_log lines).rows,
      (r.flag = "WARNING" ∨ r.flag = "ERROR") ∧
      renderRow r = [r.pid, r.job, toString r.durationSec, r.flag]) ∧
    (∀ st n raw, ∃ opt : Option Row,
      (processLine st n raw).rows = st.rows ++ opt.toList) ∧
    (∀ st n ls, ∃ new, (runLines st n ls).rows = st.rows ++ new) := by
  refine ⟨rfl, fun r hr => ⟨?_, rfl⟩, fun st n raw => ?_, fun st n ls => rows_monotone ls st n⟩
  · exact rows_flags_runLines lines initSt 1 (by simp [initSt]) r hr
  · obtain ⟨opt, heq, _⟩ := rows_step st n raw
    exact ⟨opt, heq⟩

/-- C7 witness: the single row of scenario C is flagged and rendered with
an integer duration string. -/
theorem C7_witness :
    ((⟨"202", "ETL", 720, "ERROR"⟩ : Row).flag = "WARNING" ∨
      (⟨"202", "ETL", 720, "ERROR"⟩ : Row).flag = "ERROR") :=
  ((C7_report_shape ["09:00:00,ETL,START,202", "09:12:00,ETL,END,202"]).2.1
    ⟨"202", "ETL", 720, "ERROR"⟩ (by decide)).1

/-- C8: at end of stream, one informational diagnostic naming the pid, the
job description and the start time is appended for every entry still in the
open-job table (in table order), and neither the report rows nor the table
itself change. -/
theorem C8_end_of_stream_diagnostics (lines : List String) :
    (process_log lines).rows = (runLines initSt 1 lines).rows ∧
    (process_log lines).active = (runLines initSt 1 lines).active ∧
    (process_log lines).diags = (runLines initSt 1 lines).diags ++
      (runLines initSt 1 lines).active.map (fun e => Diag.stillRunning e.1 e.2.1 e.2.2) ∧
    (∀ pid job ts, (Diag.stillRunning pid job ts).level = .info) :=
  ⟨rfl, rfl, rfl, fun _ _ _ => rfl⟩

/-! ### Whole-second durations and their formatting (C10) -/

/-- Rounding to the nearest integer with ties to even, the rounding applied
by Python float formatting (`f"{x:.0f}"`). -/
def roundHalfToEven (q : ℚ) : ℤ :=
  if Int.fract q < 1 / 2 then ⌊q⌋
  else if 1 / 2 < Int.fract q then ⌊q⌋ + 1
  else if Even ⌊q⌋ then ⌊q⌋ else ⌊q⌋ + 1

theorem roundHalfToEven_intCast (z : ℤ) : roundHalfToEven (z : ℚ) = z := by
  unfold roundHalfToEven
  rw [Int.fract_intCast]
  rw [if_pos (by norm_num : (0 : ℚ) < 1 / 2)]
  exact Int.floor_intCast z

theorem timeField_le (s : String) (m v : Nat) (h : timeField s m = some v) : v ≤ m := by
  unfold timeField at h
  split at h
  · rcases hd : decimalValue s.data with _ | n
    · simp [hd] at h
    · simp only [hd] at h
      split at h
      next hle => injection h with hh; omega
      next => simp at h
  · simp at h

theorem strptimeHMS_le (s : String) (v : Nat) (h : strptimeHMS s = some v) :
    v ≤ 86399 := by
  unfold strptimeHMS at h
  rcases hsp : splitOn ':' s with _ | ⟨a, _ | ⟨b, _ | ⟨c, _ | ⟨d, rest⟩⟩⟩⟩ <;>
    simp only [hsp] at h <;>
    first
      | exact absurd h (by simp)
      | skip
  rcases ht1 : timeField a 23 with _ | hv
  · simp [ht1] at h
  · rcases ht2 : timeField b 59 with _ | mv
    · simp [ht1, ht2] at h
    · rcases ht3 : timeField c 59 with _ | sv
      · simp [ht1, ht2, ht3] at h
      · simp only [ht1, ht2, ht3] at h
        injection h with hh
        have b1 := timeField_le a 23 hv ht1
        have b2 := timeField_le b 59 mv ht2
        have b3 := timeField_le c 59 sv ht3
        omega

theorem parseEvent_ts_le (a b c d : String) (job pid : String) (ts : Nat)
    (hp : parseEvent a b c d = .startEv job ts pid ∨
      parseEvent a b c d = .endEv job ts pid) :
    ts ≤ 86399 := by
  unfold parseEvent at hp
  rcases ht : strptimeHMS a with _ | t <;> simp only [ht] at hp
  · rcases hp with hp | hp <;> simp at hp
  · have hb := strptimeHMS_le a t ht
    rcases hp with hp | hp
    · split at hp
      · injection hp with h1 h2 h3; omega
      · split at hp
        · simp at hp
        · simp at hp
    · split at hp
      · simp at hp
      · split at hp
        · injection hp with h1 h2 h3; omega
        · simp at hp

theorem parseLine_ts_le (raw : String) (job pid : String) (ts : Nat)
    (hp : parseLine raw = .startEv job ts pid ∨ parseLine raw = .endEv job ts pid) :
    ts ≤ 86399 := by
  unfold parseLine at hp
  rcases hp with hp | hp
  · split at hp
    · simp at hp
    · unfold parseFields at hp
      split at hp
      · exact parseEvent_ts_le _ _ _ _ job pid ts (Or.inl hp)
      · simp at hp
  · split at hp
    · simp at hp
    · unfold parseFields at hp
      split at hp
      · exact parseEvent_ts_le _ _ _ _ job pid ts (Or.inr hp)
      · simp at hp

theorem dictFind_mem (d : List (String × String × Nat)) (k : String)
    (v : String × Nat) (h : dictFind d k = some v) : (k, v) ∈ d := by
  induction d with
  | nil => simp [dictFind] at h
  | cons e rest ih =>
    by_cases he : e.1 = k
    · simp only [dictFind, if_pos he] at h
      injection h with hv
      have hek : e = (k, v) := by
        rw [← he, ← hv]
      rw [← hek]
      exact List.mem_cons_self e rest
    · simp only [dictFind, if_neg he] at h
      exact List.mem_cons_of_mem e (ih h)

theorem mem_dictInsert (d : List (String × String × Nat)) (k : String)
    (v : String × Nat) (e : String × String × Nat) (he : e ∈ dictInsert d k v) :
    e ∈ d ∨ e = (k, v) := by
  induction d with
  | nil => exact Or.inr (by simpa [dictInsert] using he)
  | cons f rest ih =>
    by_cases hf : f.1 = k
    · simp only [dictInsert, if_pos hf] at he
      rcases List.mem_cons.mp he with h | h
      · exact Or.inr h
      · exact Or.inl (List.mem_cons_of_mem f h)
    · simp only [dictInsert, if_neg hf] at he
      rcases List.mem_cons.mp he with h | h
      · refine Or.inl ?_
        rw [h]
        exact List.mem_cons_self f rest
      · rcases ih h with h' | h'
        · exact Or.inl (List.mem_cons_of_mem f h')
        · exact Or.inr h'

/-- Every open entry has a start time below one day, and every written row
has a duration of magnitude below one day. -/
def stBounded (st : St) : Prop :=
  (∀ e ∈ st.active, e.2.2 ≤ 86399) ∧
  (∀ r ∈ st.rows, r.durationSec.natAbs ≤ 86399)

theorem stBounded_processLine (st : St) (n : Nat) (raw : String)
    (h : stBounded st) : stBounded (processLine st n raw) := by
  obtain ⟨ha, hr⟩ := h
  rcases hp : parseLine raw with _ | ⟨nf, l⟩ | s | e | ⟨job, ts, pid⟩ | ⟨job, ts, pid⟩ <;>
    simp only [processLine, hp]
  · exact ⟨ha, hr⟩
  · exact ⟨ha, hr⟩
  · exact ⟨ha, hr⟩
  · exact ⟨ha, hr⟩
  · have hts : ts ≤ 86399 := parseLine_ts_le raw job pid ts (Or.inl hp)
    refine ⟨?_, hr⟩
    intro e he
    rcases mem_dictInsert st.active pid (job, ts) e he with h' | h'
    · exact ha e h'
    · rw [h']
      exact hts
  · rcases hf : dictFind st.active pid with _ | ⟨jd, sts⟩ <;> simp only [hf]
    · exact ⟨ha, hr⟩
    · have hts : ts ≤ 86399 := parseLine_ts_le raw job pid ts (Or.inr hp)
      have hsts : sts ≤ 86399 := ha (pid, jd, sts) (dictFind_mem st.active pid (jd, sts) hf)
      constructor
      · intro e he
        exact ha e ((dictErase_sublist st.active pid).subset he)
      · intro r hrw
        dsimp only at hrw
        repeat' split at hrw
        all_goals try exact hr r hrw
        all_goals rcases List.mem_append.mp hrw with h' | h'
        all_goals try exact hr r h'
        all_goals rw [List.mem_singleton.mp h']
        all_goals show ((ts : Int) - (sts : Int)).natAbs ≤ 86399
        all_goals omega

theorem stBounded_runLines (ls : List String) (st : St) (n : Nat)
    (h : stBounded st) : stBounded (runLines st n ls) := by
  induction ls generalizing st n with
  | nil => exact h
  | cons l rest ih => exact ih (processLine st n l) (n + 1) (stBounded_processLine st n l h)

/-- C10: the timestamps produced by parsing are whole seconds of a single
day (at most 86399), so — both being combined with the same fixed reference
date — every duration in the report is an exact whole number of seconds of
magnitude at most 86399, and the emitted duration string is the decimal
representation of that exact integer: rounding it to zero decimal places
(half to even, as Python float formatting does) returns exactly the value
compared against the thresholds. -/
theorem C10_duration_whole_seconds (lines : List String) :
    (∀ s v, strptimeHMS s = some v → v ≤ 86399) ∧
    (∀ r ∈ (process_log lines).rows,
      r.durationSec.natAbs ≤ 86399 ∧
      roundHalfToEven ((r.durationSec : ℤ) : ℚ) = r.durationSec ∧
      fmtDuration r.durationSec = toString r.durationSec) := by
  refine ⟨fun s v h => strptimeHMS_le s v h, fun r hr => ?_⟩
  have hb : stBounded (runLines initSt 1 lines) :=
    stBounded_runLines lines initSt 1 (by simp [stBounded, initSt])
  exact ⟨hb.2 r hr, roundHalfToEven_intCast r.durationSec, rfl⟩

/-- C10 witness: the last second of the day parses to 86399, within the
bound, and the scenario-C row has an in-range whole-second duration. -/
theorem C10_witness :
    strptimeHMS "23:59:59" = some 86399 ∧ (86399 : Nat) ≤ 86399 ∧
    (⟨"202", "ETL", 720, "ERROR"⟩ : Row).durationSec.natAbs ≤ 86399 :=
  ⟨by decide, (C10_duration_whole_seconds []).1 "23:59:59" 86399 (by decide),
    ((C10_duration_whole_seconds ["09:00:00,ETL,START,202", "09:12:00,ETL,END,202"]).2
      ⟨"202", "ETL", 720, "ERROR"⟩ (by decide)).1⟩

end JoblogMonitor
